import Mathlib

/-
  Verification of the image-management upload core (mynewt-mcumgr img_mgmt).

  The repository ships `img_mgmt_impl.h`, the contract surface of the core:
  `img_mgmt_impl_erase_if_needed`, `img_mgmt_impl_upload_inspect`,
  `img_mgmt_impl_write_image_data`, `img_mgmt_impl_erase_image_data`,
  `img_mgmt_impl_swap_type`, `img_mgmt_impl_write_confirmed`.  The header
  declares these functions; their bodies are host-OS overrides, so the
  behaviour verified here is the one the design document specifies for them.
-/

namespace ImgMgmt

/-- Modelled from the spec: sector rounding used by the erase coordinator,
`round_up(x, sector)` = least multiple of `sector` that is `>= x`. -/
def round_up (x sector : Nat) : Nat :=
  if sector = 0 then x else (x + sector - 1) / sector * sector

/-- Modelled from the spec: `img_mgmt_impl_erase_if_needed` (declared in
`img_mgmt_impl.h`, body missing).  `eraseOk` models whether the underlying
flash-erase primitive succeeds.  Given the session's erase high-water-mark
`hwm` and a pending write `[off, off+len)`, compute
`erase_through = round_up (off+len) sectorSize`; if it exceeds `hwm`, erase
the half-open range `[hwm, erase_through)` and advance the mark, otherwise
do nothing.  Returns the erased range (or `none`, or an error when the
primitive fails) together with the updated high-water-mark; on failure the
mark is not advanced. -/
def erase_if_needed (eraseOk : Bool) (sectorSize hwm off len : Nat) :
    Except Unit (Option (Nat × Nat)) × Nat :=
  let et := round_up (off + len) sectorSize
  if hwm < et then
    if eraseOk then (Except.ok (some (hwm, et)), et) else (Except.error (), hwm)
  else (Except.ok none, hwm)

/-- Flash content of the two slots, byte-addressed.  Slot 0 is the active
slot, slot 1 the staging slot. -/
structure Flash where
  slot0 : Nat → Nat
  slot1 : Nat → Nat

/-- Modelled from the spec: `img_mgmt_impl_write_image_data` (declared in
`img_mgmt_impl.h`, body missing).  Writes a chunk to slot 1 at `off`; the
interface has no slot parameter, the target is always the staging slot. -/
def write_image_data (fl : Flash) (off : Nat) (data : List Nat) : Flash :=
  { fl with slot1 := fun a =>
      if off ≤ a ∧ a < off + data.length then data.getD (a - off) 0 else fl.slot1 a }

/-- Modelled from the spec: `img_mgmt_impl_erase_image_data` (declared in
`img_mgmt_impl.h`, body missing).  Erases `[off, off+len)` of slot 1 (erased
flash reads as 0xFF); again no slot parameter exists. -/
def erase_image_data (fl : Flash) (off len : Nat) : Flash :=
  { fl with slot1 := fun a =>
      if off ≤ a ∧ a < off + len then 255 else fl.slot1 a }

/-- Modelled from the spec: the upload session state — declared total size,
next expected offset, the running digest state (the bytes folded into the
digest so far), the erase high-water-mark and the completion flag. -/
structure Session where
  totalSize : Nat
  nextOffset : Nat
  received : List Nat
  ehwm : Nat
  complete : Bool
deriving DecidableEq

/-- Modelled from the spec: an upload chunk request (`img_mgmt_upload_req`):
offset, data, optional declared total size, optional expected digest. -/
structure UploadReq where
  offset : Nat
  data : List Nat
  totalSize : Option Nat
  expectedDigest : Option Nat
deriving DecidableEq

/-- Modelled from the spec: the Upload Action produced by the Validator —
accept-and-write (with the finalize marker), accept-duplicate, or reject. -/
inductive UploadAction where
  | acceptWrite (off len : Nat) (finalize : Bool)
  | acceptDuplicate
  | reject (reason : String)
deriving DecidableEq

/-- Modelled from the spec: the offset-0 leg of the Upload Validator — a
new session needs a present, nonzero declared total size (else reject
"missing length") and a chunk that fits in it (else reject "overflow");
the finalize marker is set when the first chunk already completes the
image. -/
def inspect_start (req : UploadReq) : UploadAction :=
  match req.totalSize with
  | none => UploadAction.reject "missing length"
  | some t =>
    if t = 0 then UploadAction.reject "missing length"
    else if req.data.length ≤ t then
      UploadAction.acceptWrite 0 req.data.length (if req.data.length = t then true else false)
    else UploadAction.reject "overflow"

/-- Modelled from the spec: `img_mgmt_impl_upload_inspect` (declared in
`img_mgmt_impl.h`, body missing) — the pure Upload Validator.  Rules:
offset 0 starts a new session (superseding an incomplete prior one);
offset equal to the next expected offset is accept-and-write with an
overflow check against the declared total; a smaller offset is a duplicate
retry; a larger offset is rejected as out of order.  The finalize marker is
set when the chunk completes the image. -/
def inspect : Option Session → UploadReq → UploadAction
  | none, req =>
    if req.offset = 0 then inspect_start req
    else UploadAction.reject "no session"
  | some s, req =>
    if req.offset = 0 then inspect_start req
    else if req.offset = s.nextOffset then
      if req.offset + req.data.length ≤ s.totalSize then
        UploadAction.acceptWrite req.offset req.data.length
          (if req.offset + req.data.length = s.totalSize then true else false)
      else UploadAction.reject "overflow"
    else if req.offset < s.nextOffset then UploadAction.acceptDuplicate
    else UploadAction.reject "out of order"

/-- Modelled from the spec: the fresh session created by an offset-0 chunk. -/
def freshSession (total : Nat) : Session :=
  { totalSize := total, nextOffset := 0, received := [], ehwm := 0, complete := false }

/-- Modelled from the spec: the accept-and-write leg of the Upload Session
Controller — erase via the coordinator, write the chunk to slot 1, fold the
bytes into the digest state, advance the offset; on the finalize marker
check the expected digest (if declared) and mark the session complete. -/
def do_write (dg : List Nat → Nat) (ss : Nat) (eo : Bool) (fl : Flash)
    (s : Session) (req : UploadReq) (off len : Nat) (fin : Bool) :
    Except String (Session × Flash × Nat × Bool) :=
  match erase_if_needed eo ss s.ehwm off len with
  | (Except.error _, _) => Except.error "flash erase failed"
  | (Except.ok r, hwm') =>
    let fl1 := match r with
      | some (lo, hi) => erase_image_data fl lo (hi - lo)
      | none => fl
    let fl2 := write_image_data fl1 off req.data
    let s' : Session :=
      { s with nextOffset := off + len, received := s.received ++ req.data,
               ehwm := hwm', complete := fin }
    if fin then
      match req.expectedDigest with
      | some d =>
        if dg (s.received ++ req.data) = d then Except.ok (s', fl2, off + len, fin)
        else Except.error "digest mismatch"
      | none => Except.ok (s', fl2, off + len, fin)
    else Except.ok (s', fl2, off + len, fin)

/-- Whether the (optional) session is already complete. -/
def sessComplete : Option Session → Bool
  | some s => s.complete
  | none => false

/-- Modelled from the spec: `handle_chunk`, the Upload Session Controller.
A completed session rejects any further chunk ("already complete").
Otherwise the Validator's plan is executed: reject surfaces the error and
leaves all state unchanged; accept-duplicate succeeds without touching
flash or the session; accept-and-write at offset 0 starts a fresh session
(superseding the incomplete prior one) and then writes, any other
accept-and-write continues the current session. -/
def handle_chunk (dg : List Nat → Nat) (ss : Nat) (eo : Bool) :
    Option Session → Flash → UploadReq → Except String (Session × Flash × Nat × Bool)
  | none, fl, req =>
    match inspect none req with
    | UploadAction.reject r => Except.error r
    | UploadAction.acceptDuplicate => Except.error "no session"
    | UploadAction.acceptWrite off len fin =>
      do_write dg ss eo fl (freshSession (req.totalSize.getD 0)) req off len fin
  | some s, fl, req =>
    if s.complete then Except.error "already complete"
    else
      match inspect (some s) req with
      | UploadAction.reject r => Except.error r
      | UploadAction.acceptDuplicate =>
        Except.ok (s, fl, req.offset + req.data.length, false)
      | UploadAction.acceptWrite off len fin =>
        if off = 0 then
          do_write dg ss eo fl (freshSession (req.totalSize.getD 0)) req off len fin
        else do_write dg ss eo fl s req off len fin

/-- Runs the Controller over a list of chunk requests, threading the session
and flash state and collecting each call's `is_complete` result. -/
def runChunks (dg : List Nat → Nat) (ss : Nat) (eo : Bool) :
    Option Session → Flash → List UploadReq → Except String (Session × Flash × List Bool)
  | some s, fl, [] => Except.ok (s, fl, [])
  | none, _, [] => Except.error "no chunks"
  | sess, fl, r :: rs =>
    match handle_chunk dg ss eo sess fl r with
    | Except.error e => Except.error e
    | Except.ok (s1, fl1, _, c) =>
      match runChunks dg ss eo (some s1) fl1 rs with
      | Except.error e => Except.error e
      | Except.ok (sf, flf, cs) => Except.ok (sf, flf, c :: cs)

/-- The chunk requests of a contiguous in-order delivery of `chunks`
starting at offset `o`: each chunk's offset is the running sum of the
previous lengths, every request declares the total size. -/
def mk_reqs (total : Nat) : Nat → List (List Nat) → List UploadReq
  | _, [] => []
  | o, c :: cs =>
    { offset := o, data := c, totalSize := some total, expectedDigest := none } ::
      mk_reqs total (o + c.length) cs

/-- The digest a session reports: the abstract digest function applied to
the bytes folded in so far. -/
def session_digest (dg : List Nat → Nat) (s : Session) : Nat :=
  dg s.received

/-- Observable (flash-free) view of a Controller result, for concrete
evaluation: the session, progressed offset and completion flag on success. -/
def resultSession : Except String (Session × Flash × Nat × Bool) → Option (Session × Nat × Bool)
  | Except.ok (s, _, o, c) => some (s, o, c)
  | Except.error _ => none

/-- Modelled from the spec: per-slot boot flags (pending, permanent,
confirmed, test-once) read and written by the Slot State Manager. -/
structure SlotFlags where
  pending : Bool
  permanent : Bool
  confirmed : Bool
  testOnce : Bool
deriving DecidableEq

/-- The flag state of both slots (slot 0 active, slot 1 staging). -/
structure SlotMgrState where
  slot0 : SlotFlags
  slot1 : SlotFlags
deriving DecidableEq

/-- Modelled from the spec: the swap type `img_mgmt_impl_swap_type` reports
to the bootloader. -/
inductive SwapType where
  | noSwap | test | perm | revert | fail
deriving DecidableEq

/-- A slot's flags are consistent when it is not simultaneously pending and
confirmed. -/
def flagsConsistent (f : SlotFlags) : Bool :=
  !(f.pending && f.confirmed)

/-- Modelled from the spec: `img_mgmt_impl_swap_type` (declared in
`img_mgmt_impl.h`, body missing) — pure function of both slots' flags.
Fail on inconsistent flags; Test/Permanent when the staging slot is pending
(non-permanent / permanent); Revert when slot 0 carries an unconfirmed
test-once marker; otherwise None. -/
def compute_swap_type (st : SlotMgrState) : SwapType :=
  if !flagsConsistent st.slot0 || !flagsConsistent st.slot1 then SwapType.fail
  else if st.slot1.pending then
    if st.slot1.permanent then SwapType.perm else SwapType.test
  else if st.slot0.testOnce && !st.slot0.confirmed then SwapType.revert
  else SwapType.noSwap

/-- The swap-type query as a state-passing call: it returns the computed
value and the (unchanged) flag state. -/
def compute_swap_type_call (st : SlotMgrState) : SwapType × SlotMgrState :=
  (compute_swap_type st, st)

/-- Modelled from the spec: `img_mgmt_impl_write_confirmed` (declared in
`img_mgmt_impl.h`, body missing) — `mark_confirmed` operates on slot 0
only: it sets the confirmed flag and clears any test-once marker, and
returns 0 (success). -/
def mark_confirmed (st : SlotMgrState) : Nat × SlotMgrState :=
  (0, { st with slot0 := { st.slot0 with confirmed := true, testOnce := false } })

/-- The upload-path flash mutation primitives of the interface: chunk write,
unconditional erase, and coordinated erase-if-needed.  None of them carries
a slot parameter. -/
inductive UploadOp where
  | write (off : Nat) (data : List Nat)
  | eraseData (off len : Nat)
  | eraseIfNeeded (off len : Nat)
deriving DecidableEq

/-- Executes one upload-path flash primitive against the flash and the
session's erase high-water-mark. -/
def applyUploadOp (ss : Nat) : Flash × Nat → UploadOp → Flash × Nat
  | (fl, hwm), UploadOp.write off data => (write_image_data fl off data, hwm)
  | (fl, hwm), UploadOp.eraseData off len => (erase_image_data fl off len, hwm)
  | (fl, hwm), UploadOp.eraseIfNeeded off len =>
    match erase_if_needed true ss hwm off len with
    | (Except.ok (some (lo, hi)), hwm') => (erase_image_data fl lo (hi - lo), hwm')
    | (_, hwm') => (fl, hwm')

/-- All-zero flash, used for concrete evaluations. -/
def flZero : Flash := ⟨fun _ => 0, fun _ => 0⟩

/-- Concrete session for the C3 counterexample: total 4, next offset 2. -/
def sessC3 : Session := ⟨4, 2, [9, 9], 4, false⟩

/-- Concrete request for the C3 counterexample: a retry at offset 0. -/
def reqC3 : UploadReq := ⟨0, [7], some 4, none⟩

/-- Concrete request for the C6 counterexample: offset 0, nonzero declared
total 1, but 2 bytes of data. -/
def reqC6 : UploadReq := ⟨0, [1, 2], some 1, none⟩

/-- Concrete duplicate-retry request (offset 1, below next offset 2). -/
def reqC3b : UploadReq := ⟨1, [5], none, none⟩

/-- Concrete offset-0 request with no declared total size. -/
def reqC6a : UploadReq := ⟨0, [1], none, none⟩

/-- Concrete offset-0 request with declared total 2 and one data byte. -/
def reqC6b : UploadReq := ⟨0, [1], some 2, none⟩

/-- Concrete session for the C4/C7 witnesses: total 8, next offset 4,
high-water-mark 4. -/
def sC4 : Session := ⟨8, 4, [], 4, false⟩

/-- Concrete in-order chunk request continuing `sC4` at offset 4. -/
def reqC4 : UploadReq := ⟨4, [5], some 8, none⟩

/-- The session `handle_chunk` produces from `sC4` and `reqC4`. -/
def sC4A : Session := ⟨8, 5, [5], 8, false⟩

/-- The flash `handle_chunk` produces from `flZero`, `sC4` and `reqC4`
(sector size 4): erase `[4,8)`, then write byte 5 at offset 4. -/
def flC4A : Flash := write_image_data (erase_image_data flZero 4 4) 4 [5]

/-- Concrete session for the C5 witness. -/
def sC5 : Session := ⟨8, 2, [1, 2], 4, false⟩

/-- Concrete out-of-order request (offset 5, above next offset 2). -/
def reqC5 : UploadReq := ⟨5, [9], none, none⟩

/-- Concrete already-confirmed slot-manager state for the C9 witness. -/
def stC9 : SlotMgrState := ⟨⟨false, false, true, false⟩, ⟨false, false, false, false⟩⟩

/-! ### Helper lemmas -/

/-- `round_up` is monotone in its first argument. -/
lemma round_up_mono (s : Nat) {x y : Nat} (h : x ≤ y) : round_up x s ≤ round_up y s := by
  unfold round_up
  split
  · exact h
  · exact Nat.mul_le_mul_right s (Nat.div_le_div_right (by omega))

/-- Case analysis of the high-water-mark returned by `erase_if_needed`. -/
lemma erase_if_needed_snd (eo : Bool) (ss hwm off len : Nat) :
    (erase_if_needed eo ss hwm off len).2 = hwm ∨
    ((erase_if_needed eo ss hwm off len).2 = round_up (off + len) ss ∧
      hwm < round_up (off + len) ss) := by
  unfold erase_if_needed
  by_cases h : hwm < round_up (off + len) ss
  · rw [if_pos h]
    cases eo
    · exact Or.inl rfl
    · exact Or.inr ⟨rfl, h⟩
  · rw [if_neg h]
    exact Or.inl rfl

/-- Inversion of a successful `do_write`: the fields of the result session
and the returned offset and completion flag. -/
lemma do_write_ok {dg : List Nat → Nat} {ss : Nat} {eo : Bool} {fl : Flash}
    {s : Session} {req : UploadReq} {off len : Nat} {fin : Bool}
    {s' : Session} {fl' : Flash} {o : Nat} {c : Bool}
    (h : do_write dg ss eo fl s req off len fin = Except.ok (s', fl', o, c)) :
    s'.totalSize = s.totalSize ∧
    s'.ehwm = (erase_if_needed eo ss s.ehwm off len).2 ∧
    s'.nextOffset = off + len ∧
    s'.received = s.received ++ req.data ∧
    s'.complete = fin ∧ o = off + len ∧ c = fin := by
  unfold do_write at h
  rcases herase : erase_if_needed eo ss s.ehwm off len with ⟨r, hwm2⟩
  rw [herase] at h
  cases r with
  | error e => simp at h
  | ok rr =>
    dsimp only at h
    have hgoal : (⟨s.totalSize, off + len, s.received ++ req.data, hwm2, fin⟩ : Session) = s' ∧
        off + len = o ∧ fin = c := by
      cases fin with
      | false =>
        rw [if_neg (by simp)] at h
        rw [Except.ok.injEq, Prod.mk.injEq, Prod.mk.injEq, Prod.mk.injEq] at h
        exact ⟨h.1, h.2.2.1, h.2.2.2⟩
      | true =>
        rw [if_pos rfl] at h
        rcases hd : req.expectedDigest with _ | d
        · rw [hd] at h
          dsimp only at h
          rw [Except.ok.injEq, Prod.mk.injEq, Prod.mk.injEq, Prod.mk.injEq] at h
          exact ⟨h.1, h.2.2.1, h.2.2.2⟩
        · rw [hd] at h
          dsimp only at h
          split at h
          · rw [Except.ok.injEq, Prod.mk.injEq, Prod.mk.injEq, Prod.mk.injEq] at h
            exact ⟨h.1, h.2.2.1, h.2.2.2⟩
          · exact absurd h (by simp)
    obtain ⟨hs, ho, hc⟩ := hgoal
    subst hs ho hc
    exact ⟨rfl, rfl, rfl, rfl, rfl, rfl, rfl⟩

/-- With a succeeding erase primitive, `do_write` never fails when the chunk
is not finalizing or no expected digest was declared. -/
lemma do_write_ok_exists (dg : List Nat → Nat) (ss : Nat) (fl : Flash)
    (s : Session) (req : UploadReq) (off len : Nat) (fin : Bool)
    (hfin : fin = false ∨ req.expectedDigest = none) :
    ∃ fl2, do_write dg ss true fl s req off len fin =
      Except.ok ((⟨s.totalSize, off + len, s.received ++ req.data,
                   (erase_if_needed true ss s.ehwm off len).2, fin⟩ : Session),
                 fl2, off + len, fin) := by
  unfold do_write
  rcases herase : erase_if_needed true ss s.ehwm off len with ⟨r, hwm2⟩
  cases r with
  | error e =>
    exfalso
    unfold erase_if_needed at herase
    by_cases hlt : s.ehwm < round_up (off + len) ss
    · rw [if_pos hlt] at herase
      exact absurd herase (by simp)
    · rw [if_neg hlt] at herase
      exact absurd herase (by simp)
  | ok rr =>
    rcases rr with _ | ⟨lo, hi⟩
    · refine ⟨write_image_data fl off req.data, ?_⟩
      dsimp only
      rcases hfin with hf | hd
      · subst hf
        rw [if_neg (by simp)]
      · cases fin
        · rw [if_neg (by simp)]
        · rw [if_pos rfl, hd]
    · refine ⟨write_image_data (erase_image_data fl lo (hi - lo)) off req.data, ?_⟩
      dsimp only
      rcases hfin with hf | hd
      · subst hf
        rw [if_neg (by simp)]
      · cases fin
        · rw [if_neg (by simp)]
        · rw [if_pos rfl, hd]

/-- Inversion of the Validator on a session for a positive-offset
accept-and-write plan. -/
lemma inspect_some_acceptWrite_pos {s : Session} {req : UploadReq}
    {off len : Nat} {fin : Bool} (hpos : req.offset ≠ 0)
    (h : inspect (some s) req = UploadAction.acceptWrite off len fin) :
    off = req.offset ∧ len = req.data.length ∧ req.offset = s.nextOffset ∧
    req.offset + req.data.length ≤ s.totalSize := by
  simp only [inspect] at h
  rw [if_neg hpos] at h
  by_cases he : req.offset = s.nextOffset
  · rw [if_pos he] at h
    by_cases hle : req.offset + req.data.length ≤ s.totalSize
    · rw [if_pos hle] at h
      injection h with h1 h2 h3
      exact ⟨h1.symm, h2.symm, he, hle⟩
    · rw [if_neg hle] at h
      exact absurd h (by simp)
  · rw [if_neg he] at h
    by_cases hlt : req.offset < s.nextOffset
    · rw [if_pos hlt] at h
      exact absurd h (by simp)
    · rw [if_neg hlt] at h
      exact absurd h (by simp)

/-- One in-order Controller step: a chunk at exactly the next expected
offset of a live session is accepted, its bytes are appended to the digest
state, the offset advances, and the completion flag is set exactly when the
chunk reaches the declared total. -/
lemma handle_chunk_step (dg : List Nat → Nat) (ss : Nat) (s : Session)
    (fl : Flash) (c : List Nat) (ot : Option Nat)
    (hc : s.complete = false) (hpos : 0 < s.nextOffset)
    (hfit : s.nextOffset + c.length ≤ s.totalSize) :
    ∃ fl2, handle_chunk dg ss true (some s) fl ⟨s.nextOffset, c, ot, none⟩ =
      Except.ok ((⟨s.totalSize, s.nextOffset + c.length, s.received ++ c,
        (erase_if_needed true ss s.ehwm s.nextOffset c.length).2,
        if s.nextOffset + c.length = s.totalSize then true else false⟩ : Session),
        fl2, s.nextOffset + c.length,
        if s.nextOffset + c.length = s.totalSize then true else false) := by
  have hi : inspect (some s) ⟨s.nextOffset, c, ot, none⟩ =
      UploadAction.acceptWrite s.nextOffset c.length
        (if s.nextOffset + c.length = s.totalSize then true else false) := by
    simp only [inspect]
    dsimp only
    rw [if_neg (by omega), if_pos (by simp), if_pos hfit]
  obtain ⟨fl2, hdw⟩ := do_write_ok_exists dg ss fl s ⟨s.nextOffset, c, ot, none⟩
    s.nextOffset c.length
    (if s.nextOffset + c.length = s.totalSize then true else false) (Or.inr rfl)
  refine ⟨fl2, ?_⟩
  simp only [handle_chunk]
  rw [if_neg (by simp [hc]), hi]
  dsimp only
  rw [if_neg (by omega)]
  exact hdw

/-- The session-starting Controller step: a chunk at offset 0 with a
nonzero declared total and fitting data supersedes any incomplete prior
session and starts a fresh one holding exactly the chunk's bytes. -/
lemma handle_chunk_start (dg : List Nat → Nat) (ss : Nat)
    (sess : Option Session) (fl : Flash) (c : List Nat) (t : Nat)
    (hnc : sessComplete sess = false) (ht0 : t ≠ 0) (hle : c.length ≤ t) :
    ∃ fl2, handle_chunk dg ss true sess fl ⟨0, c, some t, none⟩ =
      Except.ok ((⟨t, c.length, c, (erase_if_needed true ss 0 0 c.length).2,
        if c.length = t then true else false⟩ : Session),
        fl2, c.length, if c.length = t then true else false) := by
  have hs : inspect_start ⟨0, c, some t, none⟩ =
      UploadAction.acceptWrite 0 c.length (if c.length = t then true else false) := by
    unfold inspect_start
    dsimp only
    rw [if_neg ht0, if_pos hle]
  obtain ⟨fl2, hdw⟩ := do_write_ok_exists dg ss fl (freshSession t) ⟨0, c, some t, none⟩
    0 c.length (if c.length = t then true else false) (Or.inr rfl)
  refine ⟨fl2, ?_⟩
  cases sess with
  | none =>
    have hi : inspect none ⟨0, c, some t, none⟩ =
        UploadAction.acceptWrite 0 c.length (if c.length = t then true else false) := by
      simp only [inspect]
      rw [if_pos (by simp)]
      exact hs
    simp only [handle_chunk]
    rw [hi]
    simpa only [Nat.zero_add] using hdw
  | some s =>
    have hc : s.complete = false := by simpa [sessComplete] using hnc
    have hi : inspect (some s) ⟨0, c, some t, none⟩ =
        UploadAction.acceptWrite 0 c.length (if c.length = t then true else false) := by
      simp only [inspect]
      rw [if_pos (by simp)]
      exact hs
    simp only [handle_chunk]
    rw [if_neg (by simp [hc]), hi]
    dsimp only
    simpa only [Nat.zero_add] using hdw

/-- Running the Controller over the in-order continuation of a live
session: every chunk is accepted, `is_complete` is false on all but the
final chunk and true on it, and the final digest state is the prior state
extended by the concatenation of the chunks. -/
lemma runChunks_go (dg : List Nat → Nat) (ss : Nat) (chunks : List (List Nat)) :
    ∀ (s : Session) (fl : Flash),
    s.complete = false → 0 < s.nextOffset →
    (∀ c ∈ chunks, c ≠ []) → chunks ≠ [] →
    s.nextOffset + (chunks.map List.length).sum = s.totalSize →
    ∃ sf flf,
      runChunks dg ss true (some s) fl (mk_reqs s.totalSize s.nextOffset chunks) =
        Except.ok (sf, flf, List.replicate (chunks.length - 1) false ++ [true]) ∧
      sf.received = s.received ++ chunks.flatten ∧ sf.complete = true ∧
      sf.totalSize = s.totalSize := by
  induction chunks with
  | nil =>
    intro s fl _ _ _ hne _
    exact absurd rfl hne
  | cons c cs ih =>
    intro s fl hc hpos hall hne hsum
    have hmap : (List.map List.length (c :: cs)).sum =
        c.length + (List.map List.length cs).sum := by simp
    have hfit : s.nextOffset + c.length ≤ s.totalSize := by omega
    obtain ⟨fl2, hstep⟩ :=
      handle_chunk_step dg ss s fl c (some s.totalSize) hc hpos hfit
    cases cs with
    | nil =>
      have hfin : s.nextOffset + c.length = s.totalSize := by
        have hone : (List.map List.length [c]).sum = c.length := by simp
        omega
      rw [if_pos hfin] at hstep
      refine ⟨⟨s.totalSize, s.nextOffset + c.length, s.received ++ c,
        (erase_if_needed true ss s.ehwm s.nextOffset c.length).2, true⟩,
        fl2, ?_, ?_, rfl, rfl⟩
      · rw [mk_reqs, mk_reqs, runChunks, hstep]
        dsimp only
        rw [runChunks]
        rfl
      · simp
    | cons c2 cs' =>
      have hlen2 : 0 < c2.length := by
        have h2 := hall c2 (by simp)
        cases c2
        · exact absurd rfl h2
        · simp
      have hmap2 : (List.map List.length (c2 :: cs')).sum =
          c2.length + (List.map List.length cs').sum := by simp
      have hlt : s.nextOffset + c.length < s.totalSize := by omega
      rw [if_neg (by omega)] at hstep
      obtain ⟨sf, flf, hrun, hrcv, hcomp, htot⟩ :=
        ih (⟨s.totalSize, s.nextOffset + c.length, s.received ++ c,
              (erase_if_needed true ss s.ehwm s.nextOffset c.length).2, false⟩ : Session)
          fl2 rfl (by dsimp only; omega)
          (fun x hx => hall x (List.mem_cons_of_mem c hx))
          (by simp) (by dsimp only; omega)
      refine ⟨sf, flf, ?_, ?_, hcomp, htot⟩
      · have hrun' :
            runChunks dg ss true
              (some (⟨s.totalSize, s.nextOffset + c.length, s.received ++ c,
                (erase_if_needed true ss s.ehwm s.nextOffset c.length).2, false⟩ : Session))
              fl2 (mk_reqs s.totalSize (s.nextOffset + c.length) (c2 :: cs')) =
            Except.ok (sf, flf,
              List.replicate ((c2 :: cs').length - 1) false ++ [true]) := hrun
        rw [mk_reqs, runChunks, hstep]
        dsimp only
        rw [hrun']
        simp [List.replicate_succ]
      · rw [hrcv]
        simp [List.append_assoc]

/-! ### Claim theorems -/

/-- Claim C2: for every nonempty sequence of nonempty chunks delivered
strictly in increasing contiguous offset order (offsets are the running
sums of the chunk lengths) whose lengths sum to the declared total size,
every Controller call succeeds, `is_complete` is true exactly once — on
the last chunk — and the final digest equals the digest of the
concatenation of all chunk bytes. -/
theorem upload_digest_complete (dg : List Nat → Nat) (ss : Nat) (fl : Flash)
    (chunks : List (List Nat)) (total : Nat)
    (hne : chunks ≠ []) (hall : ∀ c ∈ chunks, c ≠ [])
    (htot : (chunks.map List.length).sum = total) :
    ∃ sf flf, runChunks dg ss true none fl (mk_reqs total 0 chunks) =
      Except.ok (sf, flf, List.replicate (chunks.length - 1) false ++ [true]) ∧
      sf.received = chunks.flatten ∧
      session_digest dg sf = dg chunks.flatten ∧
      sf.complete = true ∧ sf.totalSize = total := by
  cases chunks with
  | nil => exact absurd rfl hne
  | cons c cs =>
    have hcne := hall c (by simp)
    have hclen : 0 < c.length := by
      cases c
      · exact absurd rfl hcne
      · simp
    have hmap : (List.map List.length (c :: cs)).sum =
        c.length + (List.map List.length cs).sum := by simp
    have ht0 : total ≠ 0 := by omega
    have hle : c.length ≤ total := by omega
    obtain ⟨fl2, hstart⟩ :=
      handle_chunk_start dg ss none fl c total rfl ht0 hle
    cases cs with
    | nil =>
      have hfin : c.length = total := by
        have hone : (List.map List.length [c]).sum = c.length := by simp
        omega
      rw [if_pos hfin] at hstart
      refine ⟨⟨total, c.length, c, (erase_if_needed true ss 0 0 c.length).2, true⟩,
        fl2, ?_, ?_, ?_, rfl, rfl⟩
      · rw [mk_reqs, mk_reqs, runChunks, hstart]
        dsimp only
        rw [runChunks]
        rfl
      · simp
      · simp [session_digest]
    | cons c2 cs' =>
      have hlen2 : 0 < c2.length := by
        have h2 := hall c2 (by simp)
        cases c2
        · exact absurd rfl h2
        · simp
      have hmap2 : (List.map List.length (c2 :: cs')).sum =
          c2.length + (List.map List.length cs').sum := by simp
      have hlt : c.length < total := by omega
      rw [if_neg (by omega)] at hstart
      obtain ⟨sf, flf, hrun, hrcv, hcomp, htotf⟩ :=
        runChunks_go dg ss (c2 :: cs')
          (⟨total, c.length, c, (erase_if_needed true ss 0 0 c.length).2, false⟩ : Session)
          fl2 rfl (by dsimp only; omega)
          (fun x hx => hall x (List.mem_cons_of_mem c hx))
          (by simp) (by dsimp only; omega)
      refine ⟨sf, flf, ?_, ?_, ?_, hcomp, htotf⟩
      · have hrun' :
            runChunks dg ss true
              (some (⟨total, c.length, c,
                (erase_if_needed true ss 0 0 c.length).2, false⟩ : Session))
              fl2 (mk_reqs total c.length (c2 :: cs')) =
            Except.ok (sf, flf,
              List.replicate ((c2 :: cs').length - 1) false ++ [true]) := hrun
        rw [mk_reqs, runChunks, hstart]
        dsimp only
        rw [Nat.zero_add, hrun']
        simp [List.replicate_succ]
      · rw [hrcv]
        simp
      · rw [session_digest, hrcv]
        simp

/-- Witness for C2: the two-chunk upload `[1,2]` then `[3]` with total 3
succeeds, completes exactly on the last chunk, and accumulates digest
state `[1,2,3]`. -/
theorem upload_digest_complete_witness :
    ∃ sf flf, runChunks List.sum 4 true none flZero (mk_reqs 3 0 [[1, 2], [3]]) =
      Except.ok (sf, flf, List.replicate 1 false ++ [true]) ∧
      sf.received = ([[1, 2], [3]] : List (List Nat)).flatten ∧
      session_digest List.sum sf = List.sum ([[1, 2], [3]] : List (List Nat)).flatten ∧
      sf.complete = true ∧ sf.totalSize = 3 :=
  upload_digest_complete List.sum 4 flZero [[1, 2], [3]] 3
    (by decide) (by decide) (by decide)

/-- Claim C1: for every call `erase_if_needed(off, len)` with sector size
`ss` and high-water-mark `hwm`, let `erase_through = round_up (off+len) ss`:
if `erase_through > hwm` then exactly the half-open range
`[hwm, erase_through)` is erased and the mark is set to `erase_through`;
if `erase_through ≤ hwm` then no erase call is performed at all. -/
theorem erase_if_needed_range_spec (ss hwm off len : Nat) :
    (hwm < round_up (off + len) ss →
      erase_if_needed true ss hwm off len =
        (Except.ok (some (hwm, round_up (off + len) ss)), round_up (off + len) ss)) ∧
    (round_up (off + len) ss ≤ hwm →
      erase_if_needed true ss hwm off len = (Except.ok none, hwm)) := by
  constructor
  · intro h
    unfold erase_if_needed
    rw [if_pos h, if_pos rfl]
  · intro h
    unfold erase_if_needed
    rw [if_neg (Nat.not_lt.mpr h)]

/-- Witness for C1: a needed erase at mark 0 and a skipped erase at mark
2048, with sector size 1024 and a 1000-byte write at offset 0. -/
theorem erase_if_needed_range_spec_witness :
    erase_if_needed true 1024 0 0 1000 = (Except.ok (some (0, 1024)), 1024) ∧
    erase_if_needed true 1024 2048 0 1000 = (Except.ok none, 2048) :=
  ⟨(erase_if_needed_range_spec 1024 0 0 1000).1 (by decide),
   (erase_if_needed_range_spec 1024 2048 0 1000).2 (by decide)⟩

/-- Claim C3 counterexample: a chunk at offset 0 below the next expected
offset 2, delivered before the session completes, is not treated as
Accept-duplicate — it restarts the session (rule 1 takes precedence),
writes to flash, and changes the session state. -/
theorem duplicate_offset_zero_counterexample :
    reqC3.offset < sessC3.nextOffset ∧ sessC3.complete = false ∧
    resultSession (handle_chunk List.sum 2 true (some sessC3) flZero reqC3) =
      some (⟨4, 1, [7], 2, false⟩, 1, false) ∧
    (⟨4, 1, [7], 2, false⟩ : Session) ≠ sessC3 := by decide

/-- Claim C3 (amended): for every chunk request with a nonzero offset
strictly below the session's next expected offset, delivered before the
session completes, the Validator answers Accept-duplicate and the
Controller returns success without touching flash or the session state. -/
theorem accept_duplicate_noop (dg : List Nat → Nat) (ss : Nat) (eo : Bool)
    (s : Session) (fl : Flash) (req : UploadReq)
    (hpos : 0 < req.offset) (hlt : req.offset < s.nextOffset)
    (hc : s.complete = false) :
    inspect (some s) req = UploadAction.acceptDuplicate ∧
    handle_chunk dg ss eo (some s) fl req =
      Except.ok (s, fl, req.offset + req.data.length, false) := by
  have hi : inspect (some s) req = UploadAction.acceptDuplicate := by
    simp only [inspect]
    rw [if_neg (by omega), if_neg (by omega), if_pos hlt]
  refine ⟨hi, ?_⟩
  simp only [handle_chunk]
  rw [if_neg (by simp [hc]), hi]

/-- Witness for C3 (amended): retrying offset 1 against a session expecting
offset 2 succeeds and leaves session and flash untouched. -/
theorem accept_duplicate_noop_witness :
    inspect (some sessC3) reqC3b = UploadAction.acceptDuplicate ∧
    handle_chunk List.sum 2 true (some sessC3) flZero reqC3b =
      Except.ok (sessC3, flZero, 2, false) :=
  accept_duplicate_noop List.sum 2 true sessC3 flZero reqC3b
    (by decide) (by decide) (by decide)

/-- Claim C4: across every successful in-session Controller operation
(nonzero offset, so the same session continues), the erase high-water-mark
is monotonically non-decreasing and never exceeds the declared total size
rounded up to the sector size. -/
theorem erase_hwm_monotone_bounded (dg : List Nat → Nat) (ss : Nat) (eo : Bool)
    (s : Session) (fl : Flash) (req : UploadReq)
    (s' : Session) (fl' : Flash) (o : Nat) (c : Bool)
    (h : handle_chunk dg ss eo (some s) fl req = Except.ok (s', fl', o, c))
    (hoff : 0 < req.offset)
    (hinv : s.ehwm ≤ round_up s.totalSize ss) :
    s.ehwm ≤ s'.ehwm ∧ s'.ehwm ≤ round_up s'.totalSize ss := by
  simp only [handle_chunk] at h
  by_cases hcomp : s.complete
  · rw [if_pos (by simp [hcomp])] at h
    exact absurd h (by simp)
  · rw [if_neg (by simp [hcomp])] at h
    cases hins : inspect (some s) req with
    | reject r =>
      rw [hins] at h
      exact absurd h (by simp)
    | acceptDuplicate =>
      rw [hins] at h
      dsimp only at h
      rw [Except.ok.injEq, Prod.mk.injEq] at h
      obtain ⟨hs, -⟩ := h
      subst hs
      exact ⟨Nat.le_refl _, hinv⟩
    | acceptWrite off len fin =>
      rw [hins] at h
      dsimp only at h
      obtain ⟨hoff', hlen', hnext, hle⟩ :=
        inspect_some_acceptWrite_pos (by omega) hins
      rw [if_neg (by omega)] at h
      obtain ⟨ht, he, -, -, -, -, -⟩ := do_write_ok h
      rcases erase_if_needed_snd eo ss s.ehwm off len with hsnd | ⟨hsnd, hlt⟩
      · rw [he, hsnd, ht]
        exact ⟨Nat.le_refl _, hinv⟩
      · rw [he, hsnd, ht]
        refine ⟨Nat.le_of_lt hlt, ?_⟩
        exact round_up_mono ss (by omega)

/-- Witness for C4: continuing session `sC4` with the in-order chunk
`reqC4` (sector size 4) keeps the mark monotone and within the rounded
total. -/
theorem erase_hwm_monotone_bounded_witness :
    sC4.ehwm ≤ sC4A.ehwm ∧ sC4A.ehwm ≤ round_up sC4A.totalSize 4 :=
  erase_hwm_monotone_bounded List.sum 4 true sC4 flZero reqC4 sC4A flC4A 5 false
    rfl (by decide) (by decide)

/-- Claim C5: every chunk request whose offset is strictly greater than the
session's next expected offset is rejected by the Validator as
"out of order", regardless of its data content or length, and the
Controller performs no write and no erase (it returns an error, leaving all
state untouched). -/
theorem out_of_order_rejected (dg : List Nat → Nat) (ss : Nat) (eo : Bool)
    (s : Session) (fl : Flash) (req : UploadReq)
    (h : s.nextOffset < req.offset) :
    inspect (some s) req = UploadAction.reject "out of order" ∧
    ∃ e, handle_chunk dg ss eo (some s) fl req = Except.error e := by
  have hi : inspect (some s) req = UploadAction.reject "out of order" := by
    simp only [inspect]
    rw [if_neg (by omega), if_neg (by omega), if_neg (by omega)]
  refine ⟨hi, ?_⟩
  simp only [handle_chunk]
  by_cases hcomp : s.complete
  · exact ⟨"already complete", by rw [if_pos (by simp [hcomp])]⟩
  · refine ⟨"out of order", ?_⟩
    rw [if_neg (by simp [hcomp]), hi]

/-- Witness for C5: offset 5 against a session expecting offset 2 is
rejected. -/
theorem out_of_order_rejected_witness :
    inspect (some sC5) reqC5 = UploadAction.reject "out of order" ∧
    ∃ e, handle_chunk List.sum 4 true (some sC5) flZero reqC5 = Except.error e :=
  out_of_order_rejected List.sum 4 true sC5 flZero reqC5 (by decide)

/-- Claim C6 counterexample: a chunk at offset 0 with a nonzero declared
total size (1) but more data (2 bytes) than the total is rejected with
"overflow" — no session is started, refuting the unconditional
session-start half of the claim. -/
theorem offset_zero_overflow_counterexample :
    reqC6.offset = 0 ∧ reqC6.totalSize = some 1 ∧ (1 : Nat) ≠ 0 ∧
    inspect none reqC6 = UploadAction.reject "overflow" ∧
    resultSession (handle_chunk List.sum 2 true none flZero reqC6) = none := by
  decide

/-- Claim C6 (amended): for every chunk request at offset 0 whose declared
total size is absent or zero, the Validator rejects with "missing length"
and no session is created (the Controller errors); for every chunk request
at offset 0 with a nonzero declared total size and data fitting in it, the
Validator answers Accept-and-write at offset 0, starting a new session. -/
theorem offset_zero_session_start (dg : List Nat → Nat) (ss : Nat) (eo : Bool)
    (sess : Option Session) (fl : Flash) (req : UploadReq)
    (h0 : req.offset = 0) :
    ((req.totalSize = none ∨ req.totalSize = some 0) →
      inspect sess req = UploadAction.reject "missing length" ∧
      (sessComplete sess = false →
        handle_chunk dg ss eo sess fl req = Except.error "missing length")) ∧
    (∀ t, req.totalSize = some t → t ≠ 0 → req.data.length ≤ t →
      inspect sess req = UploadAction.acceptWrite 0 req.data.length
        (if req.data.length = t then true else false)) := by
  have hstart : ∀ a, inspect_start req = a → inspect sess req = a := by
    intro a ha
    cases sess with
    | none => simp only [inspect]; rw [if_pos h0]; exact ha
    | some s => simp only [inspect]; rw [if_pos h0]; exact ha
  constructor
  · intro hts
    have hi : inspect_start req = UploadAction.reject "missing length" := by
      rcases hts with hn | hz
      · unfold inspect_start
        rw [hn]
      · unfold inspect_start
        rw [hz]
        dsimp only
        rw [if_pos rfl]
    have hi' := hstart _ hi
    refine ⟨hi', ?_⟩
    intro hnc
    cases sess with
    | none =>
      simp only [handle_chunk]
      rw [hi']
    | some s =>
      have hc : s.complete = false := by
        simpa [sessComplete] using hnc
      simp only [handle_chunk]
      rw [if_neg (by simp [hc]), hi']
  · intro t ht htz hle
    refine hstart _ ?_
    unfold inspect_start
    rw [ht]
    dsimp only
    rw [if_neg htz, if_pos hle]

/-- Witness for C6 (amended): a missing declared total is rejected with
"missing length" while total 2 with one data byte starts a session. -/
theorem offset_zero_session_start_witness :
    inspect none reqC6a = UploadAction.reject "missing length" ∧
    handle_chunk List.sum 4 true none flZero reqC6a = Except.error "missing length" ∧
    inspect none reqC6b = UploadAction.acceptWrite 0 1 false := by
  refine ⟨?_, ?_, ?_⟩
  · exact ((offset_zero_session_start List.sum 4 true none flZero reqC6a rfl).1
      (Or.inl rfl)).1
  · exact ((offset_zero_session_start List.sum 4 true none flZero reqC6a rfl).1
      (Or.inl rfl)).2 rfl
  · exact (offset_zero_session_start List.sum 4 true none flZero reqC6b rfl).2
      2 rfl (by decide) (by decide)

/-- Claim C7: when the underlying erase primitive fails, the error is
propagated to the caller (`erase_if_needed` errors and the Controller's
write leg surfaces "flash erase failed"), the high-water-mark is not
advanced past the failed range, and a retry of the same chunk with a
working primitive re-performs exactly the failed erase. -/
theorem erase_failure_propagates (dg : List Nat → Nat) (ss : Nat)
    (s : Session) (fl : Flash) (req : UploadReq) (off len : Nat) (fin : Bool)
    (h : s.ehwm < round_up (off + len) ss) :
    erase_if_needed false ss s.ehwm off len = (Except.error (), s.ehwm) ∧
    do_write dg ss false fl s req off len fin = Except.error "flash erase failed" ∧
    erase_if_needed true ss s.ehwm off len =
      (Except.ok (some (s.ehwm, round_up (off + len) ss)), round_up (off + len) ss) := by
  have h1 : erase_if_needed false ss s.ehwm off len = (Except.error (), s.ehwm) := by
    unfold erase_if_needed
    rw [if_pos h, if_neg (by simp)]
  refine ⟨h1, ?_, ?_⟩
  · unfold do_write
    rw [h1]
  · unfold erase_if_needed
    rw [if_pos h, if_pos rfl]

/-- Witness for C7: with mark 4 and a write of `[4,5)` at sector size 4,
the failed erase leaves the mark at 4 and the retry erases `[4,8)`. -/
theorem erase_failure_propagates_witness :
    erase_if_needed false 4 sC4.ehwm 4 1 = (Except.error (), sC4.ehwm) ∧
    do_write List.sum 4 false flZero sC4 reqC4 4 1 false =
      Except.error "flash erase failed" ∧
    erase_if_needed true 4 sC4.ehwm 4 1 =
      (Except.ok (some (sC4.ehwm, round_up (4 + 1) 4)), round_up (4 + 1) 4) :=
  erase_failure_propagates List.sum 4 sC4 flZero reqC4 4 1 false (by decide)

/-- Claim C8: `compute_swap_type` is a deterministic pure function of the
two slots' boot flags — the call mutates no state, and two consecutive
calls with no intervening flag mutation return the same swap type. -/
theorem compute_swap_type_pure (st : SlotMgrState) :
    (compute_swap_type_call st).2 = st ∧
    (compute_swap_type_call (compute_swap_type_call st).2).1 =
      (compute_swap_type_call st).1 :=
  ⟨rfl, rfl⟩

/-- Claim C9: `mark_confirmed` is idempotent — confirming an
already-confirmed slot 0 is a no-op success — and in every state it clears
the test-once marker and leaves slot 0 confirmed. -/
theorem mark_confirmed_idempotent (st : SlotMgrState) :
    mark_confirmed (mark_confirmed st).2 = (0, (mark_confirmed st).2) ∧
    (mark_confirmed st).2.slot0.testOnce = false ∧
    (mark_confirmed st).2.slot0.confirmed = true ∧
    (st.slot0.confirmed = true → st.slot0.testOnce = false →
      mark_confirmed st = (0, st)) := by
  obtain ⟨⟨p, pm, cf, t0⟩, s1⟩ := st
  refine ⟨rfl, rfl, rfl, ?_⟩
  intro hc ht
  simp only at hc ht
  subst hc ht
  rfl

/-- Witness for C9: confirming the already-confirmed state `stC9` returns
success and leaves it unchanged. -/
theorem mark_confirmed_idempotent_witness :
    mark_confirmed stC9 = (0, stC9) :=
  (mark_confirmed_idempotent stC9).2.2.2 rfl rfl

/-- Claim C10: the upload-path flash primitives (chunk write,
erase-of-image-data, erase-if-needed) carry no slot parameter and address
slot 1 exclusively, so any sequence of upload operations leaves the flash
content of slot 0 unchanged. -/
theorem upload_ops_preserve_slot0 (ss : Nat) (ops : List UploadOp)
    (fl : Flash) (hwm : Nat) :
    (List.foldl (applyUploadOp ss) (fl, hwm) ops).1.slot0 = fl.slot0 := by
  induction ops generalizing fl hwm with
  | nil => rfl
  | cons op rest ih =>
    rw [List.foldl_cons]
    have h2 : (applyUploadOp ss (fl, hwm) op).1.slot0 = fl.slot0 := by
      cases op with
      | write off data => rfl
      | eraseData off len => rfl
      | eraseIfNeeded off len =>
        simp only [applyUploadOp]
        rcases herase : erase_if_needed true ss hwm off len with ⟨r, hwm2⟩
        rcases r with e | rr
        · rfl
        · rcases rr with _ | ⟨lo, hi⟩
          · rfl
          · rfl
    exact (ih (applyUploadOp ss (fl, hwm) op).1
      (applyUploadOp ss (fl, hwm) op).2).trans h2

end ImgMgmt
